import Mathlib

/-!
Shallow embedding of `src/server.js`, a minimal HTTP CRUD service over a
list of todos persisted in a JSON file (`todos.json`), together with a
verification of the specification's claims about it.

Conventions of the embedding:
* JavaScript numbers that the program ever stores in an `id` field are
  integers here (`Int`); `parseInt` is modelled by `parseIntJS`.
* A rejected promise / thrown `Error` is an `Except.error` carrying the
  `Error`'s `message` string.  `readTodos` catches its own errors and
  resolves with `undefined`; that is modelled by `Option` (`none` is the
  `undefined` result).
* The persisted file is a `FileState`: either unreadable or a string.
  `JSON.parse` applied to that string is modelled by `parseTodosChars`,
  the inverse of the exact pretty-printed serialization
  (`JSON.stringify(todos, null, 2)`) that the program itself writes;
  on any other shape of input the model reports a parse failure.
* The HTTP layer is `serverCore : Request → FileState → Response × FileState`,
  one branch per route of the `http.createServer` callback, and
  `serverStep` additionally threads the event-log listener
  (`logs.on('log', ...)`), whose append failures surface only as stderr
  lines.
-/

set_option maxRecDepth 100000

deriving instance DecidableEq for Except

namespace TodoServer

/-! Data model: the persisted todo entity `{id, title, completed}`. -/

structure Todo where
  id : Int
  title : String
  completed : Bool
deriving DecidableEq, Repr, Inhabited

/-! Decimal digits and numerals, used both by the `parseInt` model and by
the JSON serializer/parser. -/

def digitChar (n : Nat) : Char := Char.ofNat (48 + n)

def digitVal (c : Char) : Nat := c.toNat - 48

def isDigitCh (c : Char) : Bool := 48 ≤ c.toNat && c.toNat ≤ 57

def natVal (ds : List Char) : Nat := ds.foldl (fun a c => 10 * a + digitVal c) 0

def natToCharsCore : Nat → Nat → List Char → List Char
  | 0, _, acc => acc
  | fuel + 1, n, acc =>
    if n < 10 then digitChar n :: acc
    else natToCharsCore fuel (n / 10) (digitChar (n % 10) :: acc)

def natToChars (n : Nat) : List Char := natToCharsCore (n + 1) n []

def intToChars (i : Int) : List Char :=
  if i < 0 then '-' :: natToChars (-i).toNat else natToChars i.toNat

/-! Repository operations of `server.js`, phrased over the in-memory
collection (the part of each function between its `readTodos()` load and
its `fs.writeFile` save).  The search helpers mirror `Array.prototype.find`
and `Array.prototype.findIndex`. -/

/-- Model of `getTodoById` (line 26): `todos.find(t => t.id === id)`;
`none` is the thrown "not found" error. -/
def getTodoById (todos : List Todo) (id : Int) : Option Todo :=
  match todos with
  | [] => none
  | t :: ts => if t.id = id then some t else getTodoById ts id

/-- Model of `todos.findIndex(todo => todo.id === id)`. -/
def findIndexById (todos : List Todo) (id : Int) : Option Nat :=
  match todos with
  | [] => none
  | t :: ts => if t.id = id then some 0 else (findIndexById ts id).map (· + 1)

/-- Input of `createTodo`: `{title, completed?}` after body validation. -/
structure CreateInput where
  title : String
  completed : Option Bool
deriving DecidableEq, Repr

/-- Last element's id, or 0 on the empty collection (line 39 of
`createTodo`: `todos.length > 0 ? todos[todos.length - 1].id : 0`). -/
def lastIdOf (todos : List Todo) : Int :=
  match todos.getLast? with
  | some t => t.id
  | none => 0

/-- Model of `createTodo` (lines 36-55): appends
`{id: lastId + 1, title, completed: completed || false}` and returns the
new todo together with the updated collection. -/
def createTodo (todos : List Todo) (newTodo : CreateInput) : Todo × List Todo :=
  let todo : Todo :=
    { id := lastIdOf todos + 1
      title := newTodo.title
      completed := newTodo.completed.getD false }
  (todo, todos ++ [todo])

/-- Fields of a parsed JSON request body relevant to the todo schema; a
missing field is `none`.  A `PUT` handler passes the whole parsed body as
`updates`, so an `id` field can be merged in. -/
structure UpdateFields where
  id : Option Int
  title : Option String
  completed : Option Bool
deriving DecidableEq, Repr

/-- Shallow merge `{...todos[index], ...updates}` (line 67). -/
def mergeTodo (t : Todo) (u : UpdateFields) : Todo :=
  { id := u.id.getD t.id
    title := u.title.getD t.title
    completed := u.completed.getD t.completed }

/-- Model of `updateTodo` (lines 57-76).  The catch block rewraps every
error as `new Error('Error updating todo:', err.message)`; the second
argument of the `Error` constructor is not a message, so the resulting
message is exactly "Error updating todo:". -/
def updateTodo (todos : List Todo) (id : Int) (updates : UpdateFields) :
    Except String (Todo × List Todo) :=
  match findIndexById todos id with
  | none => .error "Error updating todo:"
  | some i =>
    match todos[i]? with
    | none => .error "Error updating todo:"
    | some t =>
      let m := mergeTodo t updates
      .ok (m, todos.set i m)

/-- Model of `deleteTodo` (lines 78-97).  As in `updateTodo`, the catch
block rewraps the "Todo id not found" error, and the rethrown error's
message is exactly "Error deleting todo:". -/
def deleteTodo (todos : List Todo) (id : Int) :
    Except String (Todo × List Todo) :=
  match findIndexById todos id with
  | none => .error "Error deleting todo:"
  | some i =>
    match todos[i]? with
    | none => .error "Error deleting todo:"
    | some t => .ok (t, todos.eraseIdx i)

/-! Store: the on-disk representation.  `fs.writeFile` persists
`JSON.stringify(todos, null, 2)`; the serializer below reproduces that
output byte for byte (2-space indentation, field order `id`, `title`,
`completed`, JSON string escaping). -/

/-- Lower-case hexadecimal digit, for `\u00XX` escapes. -/
def hexDigitCh (n : Nat) : Char :=
  if n < 10 then digitChar n else Char.ofNat (87 + n)

/-- Escape of a single character inside a JSON string literal, as
performed by `JSON.stringify`. -/
def escChar (c : Char) : List Char :=
  if c = '"' then ['\\', '"']
  else if c = '\\' then ['\\', '\\']
  else if c = '\x08' then ['\\', 'b']
  else if c = '\t' then ['\\', 't']
  else if c = '\n' then ['\\', 'n']
  else if c = '\x0c' then ['\\', 'f']
  else if c = '\r' then ['\\', 'r']
  else if c.toNat < 32 then
    ['\\', 'u', '0', '0', hexDigitCh (c.toNat / 16), hexDigitCh (c.toNat % 16)]
  else [c]

def escapeChars : List Char → List Char
  | [] => []
  | c :: cs => escChar c ++ escapeChars cs

def jsonEscape (s : String) : String := ⟨escapeChars s.data⟩

def boolChars (b : Bool) : List Char := if b then "true".data else "false".data

/-- Literal chunk of the pretty output before the `id` value. -/
def itemPre : String := "  \x7b\n    \"id\": "

/-- Literal chunk between the `id` value and the `title` string,
ending with the title's opening quote. -/
def titlePre : String := ",\n    \"title\": \""

/-- Literal chunk after the title's closing quote, before the
`completed` value. -/
def compPre : String := ",\n    \"completed\": "

/-- Literal chunk closing one pretty-printed todo object. -/
def itemSuf : String := "\n  \x7d"

/-- One todo as rendered inside `JSON.stringify(todos, null, 2)`. -/
def prettyTodoChars (t : Todo) : List Char :=
  itemPre.data ++ intToChars t.id ++
    (titlePre.data ++ (escapeChars t.title.data ++
      ('"' :: (compPre.data ++ (boolChars t.completed ++ itemSuf.data)))))

/-- The items of the array joined by `",\n"`. -/
def itemsChars : List Todo → List Char
  | [] => []
  | [t] => prettyTodoChars t
  | t :: ts => prettyTodoChars t ++ (',' :: '\n' :: itemsChars ts)

/-- The whole file content `JSON.stringify(todos, null, 2)`. -/
def prettyTodosChars : List Todo → List Char
  | [] => ['[', ']']
  | l => '[' :: '\n' :: (itemsChars l ++ ['\n', ']'])

def prettyTodos (l : List Todo) : String := ⟨prettyTodosChars l⟩

def intToString (i : Int) : String := ⟨intToChars i⟩

/-- Compact `JSON.stringify(todo)` used for HTTP response bodies. -/
def stringifyTodo (t : Todo) : String :=
  "\x7b\"id\":" ++ intToString t.id ++ ",\"title\":\"" ++ jsonEscape t.title ++
    "\",\"completed\":" ++ (if t.completed then "true" else "false") ++ "\x7d"

/-- Compact `JSON.stringify(todos)` used by the GET `/todos` response. -/
def stringifyTodos (ts : List Todo) : String :=
  "[" ++ String.intercalate "," (ts.map stringifyTodo) ++ "]"

/-! Parsing of the persisted file, i.e. `JSON.parse` restricted to the
array-of-todos documents this program itself writes (any other content is
a parse failure, as it is for genuinely malformed JSON). -/

/-- Value of a hexadecimal digit character. -/
def hexValCh (c : Char) : Option Nat :=
  if 48 ≤ c.toNat ∧ c.toNat ≤ 57 then some (c.toNat - 48)
  else if 97 ≤ c.toNat ∧ c.toNat ≤ 102 then some (c.toNat - 87)
  else if 65 ≤ c.toNat ∧ c.toNat ≤ 70 then some (c.toNat - 55)
  else none

/-- Consume the body of a JSON string literal up to and including the
closing quote, undoing `escChar`. -/
def parseStrBody (inp : List Char) : Option (List Char × List Char) :=
  match inp with
  | [] => none
  | c :: cs =>
    if c = '"' then some ([], cs)
    else if c = '\\' then
      match cs with
      | [] => none
      | e :: cs2 =>
        if e = '"' then (parseStrBody cs2).map (fun p => ('"' :: p.1, p.2))
        else if e = '\\' then (parseStrBody cs2).map (fun p => ('\\' :: p.1, p.2))
        else if e = 'b' then (parseStrBody cs2).map (fun p => ('\x08' :: p.1, p.2))
        else if e = 't' then (parseStrBody cs2).map (fun p => ('\t' :: p.1, p.2))
        else if e = 'n' then (parseStrBody cs2).map (fun p => ('\n' :: p.1, p.2))
        else if e = 'f' then (parseStrBody cs2).map (fun p => ('\x0c' :: p.1, p.2))
        else if e = 'r' then (parseStrBody cs2).map (fun p => ('\r' :: p.1, p.2))
        else if e = 'u' then
          match cs2 with
          | h1 :: h2 :: h3 :: h4 :: cs3 =>
            match hexValCh h1, hexValCh h2, hexValCh h3, hexValCh h4 with
            | some v1, some v2, some v3, some v4 =>
              (parseStrBody cs3).map
                (fun p => (Char.ofNat (((v1 * 16 + v2) * 16 + v3) * 16 + v4) :: p.1, p.2))
            | _, _, _, _ => none
          | _ => none
        else none
    else (parseStrBody cs).map (fun p => (c :: p.1, p.2))

/-- Consume a fixed literal chunk. -/
def chopLit : List Char → List Char → Option (List Char)
  | [], cs => some cs
  | _ :: _, [] => none
  | p :: ps, c :: cs => if p = c then chopLit ps cs else none

/-- Consume a decimal numeral. -/
def parseNatChars (cs : List Char) : Option (Nat × List Char) :=
  let ds := cs.takeWhile isDigitCh
  if ds.isEmpty then none else some (natVal ds, cs.dropWhile isDigitCh)

/-- Consume a (possibly negative) JSON integer. -/
def parseIntChars (cs : List Char) : Option (Int × List Char) :=
  match cs with
  | [] => none
  | c :: rest =>
    if c = '-' then (parseNatChars rest).map (fun p => (-(p.1 : Int), p.2))
    else (parseNatChars (c :: rest)).map (fun p => ((p.1 : Int), p.2))

/-- Consume a JSON boolean. -/
def parseBoolChars : List Char → Option (Bool × List Char)
  | 't' :: 'r' :: 'u' :: 'e' :: cs => some (true, cs)
  | 'f' :: 'a' :: 'l' :: 's' :: 'e' :: cs => some (false, cs)
  | _ => none

/-- Consume one pretty-printed todo object. -/
def parseTodoItem (cs : List Char) : Option (Todo × List Char) :=
  (chopLit itemPre.data cs).bind fun cs1 =>
  (parseIntChars cs1).bind fun pi =>
  (chopLit titlePre.data pi.2).bind fun cs3 =>
  (parseStrBody cs3).bind fun pt =>
  (chopLit compPre.data pt.2).bind fun cs5 =>
  (parseBoolChars cs5).bind fun pb =>
  (chopLit itemSuf.data pb.2).bind fun cs7 =>
  some (⟨pi.1, ⟨pt.1⟩, pb.1⟩, cs7)

/-- Consume the comma-separated items and the closing `"\n]"`; the fuel
only bounds the number of items, and the callers pass at least the input
length, which the round-trip proof shows is always enough. -/
def parseLoopFuel : Nat → List Char → Option (List Todo)
  | 0, _ => none
  | fuel + 1, cs =>
    match parseTodoItem cs with
    | none => none
    | some (t, r) =>
      match r with
      | ['\n', ']'] => some [t]
      | ',' :: '\n' :: rest => (parseLoopFuel fuel rest).map (fun ts => t :: ts)
      | _ => none

/-- Parse a whole persisted document. -/
def parseTodosChars (cs : List Char) : Option (List Todo) :=
  match cs with
  | ['[', ']'] => some []
  | '[' :: '\n' :: rest => parseLoopFuel rest.length rest
  | _ => none

def parseTodos (s : String) : Option (List Todo) := parseTodosChars s.data

/-! Store state and `readTodos` (lines 17-24).  The catch block logs the
error and falls through, so the promise RESOLVES with `undefined`
(modelled as `none`) whenever the file is unreadable or its content fails
to parse; the error is never rethrown. -/

inductive FileState
  | unreadable
  | content (s : String)
deriving DecidableEq, Repr

def readTodos : FileState → Option (List Todo)
  | .unreadable => none
  | .content s => parseTodos s

/-! Model of `parseInt(query.id)`: skip leading whitespace, optional
sign, auto-detected `0x`/`0X` hexadecimal base, then the longest digit
run; `NaN` (here `none`) only when no digit was consumed. -/

def jsWhitespace (c : Char) : Bool :=
  c = ' ' || c = '\t' || c = '\n' || c = '\r' || c = '\x0b' || c = '\x0c' || c = '\xa0'

def isHexDigitCh (c : Char) : Bool := (hexValCh c).isSome

def hexNatVal (ds : List Char) : Nat :=
  ds.foldl (fun a c => 16 * a + (hexValCh c).getD 0) 0

def parseIntJS (s : String) : Option Int :=
  let cs := s.data.dropWhile jsWhitespace
  let signNeg : Bool := match cs with
    | '-' :: _ => true
    | _ => false
  let cs1 := match cs with
    | '-' :: r => r
    | '+' :: r => r
    | _ => cs
  let hexRest : Option (List Char) := match cs1 with
    | '0' :: x :: r => if x = 'x' || x = 'X' then some r else none
    | _ => none
  match hexRest with
  | some r =>
    let ds := r.takeWhile isHexDigitCh
    if ds.isEmpty then none
    else some (if signNeg then -(hexNatVal ds : Int) else (hexNatVal ds : Int))
  | none =>
    let ds := cs1.takeWhile isDigitCh
    if ds.isEmpty then none
    else some (if signNeg then -(natVal ds : Int) else (natVal ds : Int))

/-! Query-string handling of `url.parse(req.url, true).query.id`: the
query is everything after the first `?`; parameters split on `&`, each
split at its first `=`.  A missing `id` parameter yields `undefined`,
and `parseInt(undefined)` coerces it to the string `"undefined"`. -/

def afterQM : List Char → Option (List Char)
  | [] => none
  | c :: cs => if c = '?' then some cs else afterQM cs

def splitOnCharAux (sep : Char) : List Char → List Char → List (List Char)
  | [], cur => [cur.reverse]
  | c :: cs, cur =>
    if c = sep then cur.reverse :: splitOnCharAux sep cs []
    else splitOnCharAux sep cs (c :: cur)

def splitOnChar (sep : Char) (cs : List Char) : List (List Char) :=
  splitOnCharAux sep cs []

def splitKV (part : List Char) : List Char × List Char :=
  match part with
  | [] => ([], [])
  | c :: cs =>
    if c = '=' then ([], cs)
    else
      let p := splitKV cs
      (c :: p.1, p.2)

def lookupIdParam : List (List Char) → Option (List Char)
  | [] => none
  | part :: parts =>
    let kv := splitKV part
    if kv.1 = ['i', 'd'] then some kv.2 else lookupIdParam parts

def queryIdString (u : String) : String :=
  match (afterQM u.data).bind (fun q => lookupIdParam (splitOnChar '&' q)) with
  | some v => ⟨v⟩
  | none => "undefined"

def parsedQueryId (u : String) : Option Int := parseIntJS (queryIdString u)

/-! Router/Handler: the `http.createServer` callback (lines 101-278). -/

structure Response where
  status : Nat
  body : String
deriving DecidableEq, Repr

inductive Method
  | GET | POST | PUT | DELETE
deriving DecidableEq, Repr

/-- Result of `JSON.parse` on a request body: either the parse threw, or
an object whose todo-schema fields are as recorded (a missing field is
`none`).  PUT passes this whole object to `updateTodo` as `updates`. -/
inductive Body
  | malformed
  | object (fields : UpdateFields)
deriving DecidableEq, Repr

structure Request where
  method : Method
  url : String
  body : Body
deriving Repr

/-- Model of `req.url.startsWith('/todos/')`. -/
def begins : List Char → List Char → Bool
  | [], _ => true
  | _ :: _, [] => false
  | p :: ps, c :: cs => p = c && begins ps cs

def isTodosSub (u : String) : Bool := begins "/todos/".data u.data

/-- Model of `err.message.includes('not found')`. -/
def hasSubstr (needle : List Char) : List Char → Bool
  | [] => begins needle []
  | c :: cs => begins needle (c :: cs) || hasSubstr needle cs

/-- JSON body `{error: msg}` (no escaping needed for the messages the
server produces). -/
def jsonError (msg : String) : String := "\x7b\"error\":\"" ++ msg ++ "\"\x7d"

/-- GET `/todos` (lines 103-117): `readTodos` never rejects, so the 500
catch branch is unreachable; an `undefined` result is serialized by
`JSON.stringify` to `undefined` and `res.end(undefined)` sends an empty
body with status 200. -/
def getAllResponse (fs : FileState) : Response :=
  match readTodos fs with
  | some l => ⟨200, stringifyTodos l⟩
  | none => ⟨200, ""⟩

/-- GET `/todos/?id=N` core (lines 132-141): any rejection of
`getTodoById` (not-found throw, or the TypeError on an `undefined`
collection) is answered 500. -/
def getByIdResponse (fs : FileState) (n : Int) : Response :=
  match readTodos fs with
  | none => ⟨500, "Failed to read todo"⟩
  | some l =>
    match getTodoById l n with
    | some t => ⟨200, stringifyTodo t⟩
    | none => ⟨500, "Failed to read todo"⟩

/-- POST `/todos` (lines 144-187). -/
def postResponse (fs : FileState) (b : Body) : Response × FileState :=
  match b with
  | .malformed => (⟨400, "Invalid request body"⟩, fs)
  | .object f =>
    match f.title with
    | none => (⟨400, "Invalid title"⟩, fs)
    | some s =>
      if s.data = [] then (⟨400, "Invalid title"⟩, fs)
      else
        match readTodos fs with
        | none => (⟨500, "Failed to create newtodo"⟩, fs)
        | some l =>
          let r := createTodo l ⟨s, some (f.completed.getD false)⟩
          (⟨200, stringifyTodo r.1⟩, .content (prettyTodos r.2))

/-- The load-mutate part of `updateTodo` starting from the file: an
`undefined` collection makes `findIndex` throw, and the catch rewraps
every error with message "Error updating todo:". -/
def updateTodoFs (fs : FileState) (n : Int) (u : UpdateFields) :
    Except String (Todo × List Todo) :=
  match readTodos fs with
  | none => .error "Error updating todo:"
  | some l => updateTodo l n u

/-- PUT `/todos/?id=N` body handling (lines 209-233): every rejection of
`updateTodo` is answered 404 with the error's message. -/
def putResponse (fs : FileState) (n : Int) (b : Body) : Response × FileState :=
  match b with
  | .malformed => (⟨400, jsonError "Invalid JSON"⟩, fs)
  | .object f =>
    match f.title with
    | none => (⟨400, jsonError "Title is requireed"⟩, fs)
    | some s =>
      if s.data = [] then (⟨400, jsonError "Title is requireed"⟩, fs)
      else
        match updateTodoFs fs n f with
        | .error msg => (⟨404, jsonError msg⟩, fs)
        | .ok (m, l2) => (⟨200, stringifyTodo m⟩, .content (prettyTodos l2))

/-- The load-mutate part of `deleteTodo` starting from the file. -/
def deleteTodoFs (fs : FileState) (n : Int) : Except String (Todo × List Todo) :=
  match readTodos fs with
  | none => .error "Error deleting todo:"
  | some l => deleteTodo l n

/-- DELETE `/todos/?id=N` core (lines 255-270): a rejection is answered
404 only when its message contains "not found"; the rewrapped message is
"Error deleting todo:", which never does. -/
def deleteResponse (fs : FileState) (n : Int) : Response × FileState :=
  match deleteTodoFs fs n with
  | .error msg =>
    if hasSubstr "not found".data msg.data then (⟨404, jsonError "Todo not found"⟩, fs)
    else (⟨500, jsonError "Failed to delete todo"⟩, fs)
  | .ok (t, l2) => (⟨200, stringifyTodo t⟩, .content (prettyTodos l2))

/-- The routing if-chain of lines 103-277.  Every arm of the original
chain tests a distinct method, so dispatching on the method first is
equivalent to the textual order of the chain. -/
def serverCore (req : Request) (fs : FileState) : Response × FileState :=
  match req.method with
  | .GET =>
    if req.url = "/todos" then (getAllResponse fs, fs)
    else if isTodosSub req.url then
      match parsedQueryId req.url with
      | none => (⟨400, "Invalid id"⟩, fs)
      | some n => (getByIdResponse fs n, fs)
    else (⟨404, "Endpoint not found"⟩, fs)
  | .POST =>
    if req.url = "/todos" then postResponse fs req.body
    else (⟨404, "Endpoint not found"⟩, fs)
  | .PUT =>
    if isTodosSub req.url then
      match parsedQueryId req.url with
      | none => (⟨400, "Invalid id"⟩, fs)
      | some n => putResponse fs n req.body
    else (⟨404, "Endpoint not found"⟩, fs)
  | .DELETE =>
    if isTodosSub req.url then
      match parsedQueryId req.url with
      | none => (⟨400, "Invalid id"⟩, fs)
      | some n => deleteResponse fs n
    else (⟨404, "Endpoint not found"⟩, fs)

/-! Notifier: the `logs` EventEmitter (lines 7-14).  Each matched route
emits one `log` event; the listener appends to `logs.txt` and handles a
write failure entirely inside the `appendFile` callback, where it only
writes to stderr (`console.error('Logging failed:', err)`). -/

/-- Stderr lines produced by the log listener's `appendFile` callback. -/
def logListenerStderr (appendFails : Bool) : List String :=
  if appendFails then ["Logging failed:"] else []

/-- Whether the request matches one of the five routes that emit a `log`
event. -/
def isTodoRoute (req : Request) : Bool :=
  match req.method with
  | .GET => req.url == "/todos" || isTodosSub req.url
  | .POST => req.url == "/todos"
  | .PUT => isTodosSub req.url
  | .DELETE => isTodosSub req.url

/-- One full request: the response and new file state of `serverCore`,
plus the stderr lines contributed by the log sink, whose append may fail
(`appendFails`). -/
def serverStep (req : Request) (fs : FileState) (appendFails : Bool) :
    Response × FileState × List String :=
  let core := serverCore req fs
  (core.1, core.2, if isTodoRoute req then logListenerStderr appendFails else [])

/-- Truthiness of the parsed body's `title` field as tested by
`if (!title)`: absent or empty both fail. -/
def titleTruthy : Option String → Bool
  | none => false
  | some s => !(s.data = [] : Bool)

/-- Body-validation failure on a write route: malformed JSON or a falsy
`title`. -/
def bodyBad : Body → Bool
  | .malformed => true
  | .object f => !titleTruthy f.title

/-- The requests that fail the handlers' input validation: a non-numeric
id on the GET/PUT/DELETE by-id routes, and a malformed body or falsy
title on POST and PUT. -/
def failsValidation (req : Request) : Bool :=
  match req.method with
  | .GET => isTodosSub req.url && (parsedQueryId req.url).isNone
  | .POST => req.url == "/todos" && bodyBad req.body
  | .PUT => isTodosSub req.url && ((parsedQueryId req.url).isNone || bodyBad req.body)
  | .DELETE => isTodosSub req.url && (parsedQueryId req.url).isNone

/-- A collection is well-ordered when its ids are strictly ascending in
array order (the shape produced by `createTodo` alone). -/
def ascendingIds (l : List Todo) : Prop :=
  List.Chain' (fun a b => a.id < b.id) l

example : createTodo [] ⟨"buy milk", none⟩ =
    (⟨1, "buy milk", false⟩, [⟨1, "buy milk", false⟩]) := by decide

example : updateTodo [⟨1, "a", false⟩] 1 ⟨none, none, some true⟩ =
    .ok (⟨1, "a", true⟩, [⟨1, "a", true⟩]) := by decide

example : deleteTodo [⟨1, "a", false⟩, ⟨2, "b", true⟩] 1 =
    .ok (⟨1, "a", false⟩, [⟨2, "b", true⟩]) := by decide

example : deleteTodo [] 99 = .error "Error deleting todo:" := by decide

example : parseTodos (prettyTodos []) = some [] := by decide

example : parseTodos (prettyTodos [⟨1, "a", false⟩, ⟨2, "b\"\\x", true⟩]) =
    some [⟨1, "a", false⟩, ⟨2, "b\"\\x", true⟩] := by decide

example : parseTodos (prettyTodos [⟨-5, "a\n\x01b", true⟩]) =
    some [⟨-5, "a\n\x01b", true⟩] := by decide

example : parseTodos "not json" = none := by decide

example : parseIntJS "12abc" = some 12 := by decide

example : parseIntJS "-5" = some (-5) := by decide

example : parseIntJS "undefined" = none := by decide

example : queryIdString "/todos/?id=99" = "99" := by decide

example : serverCore ⟨.DELETE, "/todos/?id=99", .malformed⟩ (.content "[]") =
    (⟨500, "\x7b\"error\":\"Failed to delete todo\"\x7d"⟩, .content "[]") := by decide

example : serverCore ⟨.GET, "/todos", .malformed⟩ .unreadable =
    (⟨200, ""⟩, .unreadable) := by decide

example : serverCore ⟨.GET, "/todos/?id=abc", .malformed⟩ (.content "[]") =
    (⟨400, "Invalid id"⟩, .content "[]") := by decide

example : serverCore ⟨.POST, "/todos", .object ⟨none, some "buy milk", none⟩⟩ (.content "[]") =
    (⟨200, "\x7b\"id\":1,\"title\":\"buy milk\",\"completed\":false\x7d"⟩,
      .content (prettyTodos [⟨1, "buy milk", false⟩])) := by decide

/-! Auxiliary lemmas on decimal numerals. -/

theorem digitVal_digitChar : ∀ k < 10, digitVal (digitChar k) = k := by decide

theorem isDigitCh_digitChar : ∀ k < 10, isDigitCh (digitChar k) = true := by decide

theorem natToCharsCore_append (fuel : Nat) :
    ∀ (n : Nat) (acc : List Char), n < fuel →
      natToCharsCore fuel n acc = natToCharsCore fuel n [] ++ acc := by
  induction fuel with
  | zero => intro n acc h; omega
  | succ f ih =>
    intro n acc h
    by_cases h10 : n < 10
    · simp [natToCharsCore, h10]
    · have hdiv : n / 10 < f := by
        have hlt : n / 10 < n := Nat.div_lt_self (by omega) (by omega)
        omega
      simp only [natToCharsCore, if_neg h10]
      rw [ih (n / 10) _ hdiv, ih (n / 10) (digitChar (n % 10) :: []) hdiv]
      simp

theorem natVal_append_digit (xs : List Char) (d : Char) :
    natVal (xs ++ [d]) = 10 * natVal xs + digitVal d := by
  simp [natVal, List.foldl_append]

theorem natVal_natToCharsCore (fuel : Nat) :
    ∀ n, n < fuel → natVal (natToCharsCore fuel n []) = n := by
  induction fuel with
  | zero => intro n h; omega
  | succ f ih =>
    intro n h
    by_cases h10 : n < 10
    · have h2 : digitVal (digitChar n) = n := digitVal_digitChar n h10
      simp [natToCharsCore, h10, natVal, h2]
    · have hdiv : n / 10 < f := by
        have hlt : n / 10 < n := Nat.div_lt_self (by omega) (by omega)
        omega
      have hmod : digitVal (digitChar (n % 10)) = n % 10 :=
        digitVal_digitChar (n % 10) (Nat.mod_lt n (by omega))
      simp only [natToCharsCore, if_neg h10]
      rw [natToCharsCore_append f (n / 10) _ hdiv, natVal_append_digit,
        ih (n / 10) hdiv, hmod]
      omega

theorem natVal_natToChars (n : Nat) : natVal (natToChars n) = n :=
  natVal_natToCharsCore (n + 1) n (Nat.lt_succ_self n)

theorem natToCharsCore_digits (fuel : Nat) :
    ∀ n c, n < fuel → c ∈ natToCharsCore fuel n [] → isDigitCh c = true := by
  induction fuel with
  | zero => intro n c h; omega
  | succ f ih =>
    intro n c h hc
    by_cases h10 : n < 10
    · simp [natToCharsCore, h10] at hc
      exact hc ▸ isDigitCh_digitChar n h10
    · have hdiv : n / 10 < f := by
        have hlt : n / 10 < n := Nat.div_lt_self (by omega) (by omega)
        omega
      simp only [natToCharsCore, if_neg h10] at hc
      rw [natToCharsCore_append f (n / 10) _ hdiv] at hc
      rcases List.mem_append.mp hc with hmem | hmem
      · exact ih (n / 10) c hdiv hmem
      · simp at hmem
        exact hmem ▸ isDigitCh_digitChar (n % 10) (Nat.mod_lt n (by omega))

theorem natToChars_digits (n : Nat) : ∀ c ∈ natToChars n, isDigitCh c = true :=
  fun c hc => natToCharsCore_digits (n + 1) n c (Nat.lt_succ_self n) hc

theorem natToChars_ne_nil (n : Nat) : natToChars n ≠ [] := by
  unfold natToChars natToCharsCore
  by_cases h10 : n < 10
  · simp [h10]
  · have hdiv : n / 10 < n := Nat.div_lt_self (by omega) (by omega)
    simp only [if_neg h10]
    rw [natToCharsCore_append n (n / 10) _ hdiv]
    simp

theorem natToChars_head (n : Nat) :
    ∃ d ds, natToChars n = d :: ds ∧ isDigitCh d = true := by
  cases hnc : natToChars n with
  | nil => exact absurd hnc (natToChars_ne_nil n)
  | cons d ds =>
    exact ⟨d, ds, rfl, natToChars_digits n d (by rw [hnc]; exact List.mem_cons_self d ds)⟩

theorem takeWhile_append_all {p : Char → Bool} :
    ∀ (xs ys : List Char), (∀ c ∈ xs, p c = true) →
      (xs ++ ys).takeWhile p = xs ++ ys.takeWhile p := by
  intro xs
  induction xs with
  | nil => intro ys _; rfl
  | cons c cs ih =>
    intro ys h
    have hc : p c = true := h c (List.mem_cons_self c cs)
    simp [List.takeWhile_cons, hc, ih ys (fun d hd => h d (List.mem_cons_of_mem c hd))]

theorem dropWhile_append_all {p : Char → Bool} :
    ∀ (xs ys : List Char), (∀ c ∈ xs, p c = true) →
      (xs ++ ys).dropWhile p = ys.dropWhile p := by
  intro xs
  induction xs with
  | nil => intro ys _; rfl
  | cons c cs ih =>
    intro ys h
    have hc : p c = true := h c (List.mem_cons_self c cs)
    simp [List.dropWhile_cons, hc, ih ys (fun d hd => h d (List.mem_cons_of_mem c hd))]

theorem dropWhile_of_takeWhile_nil {p : Char → Bool} :
    ∀ (l : List Char), l.takeWhile p = [] → l.dropWhile p = l := by
  intro l h
  cases l with
  | nil => rfl
  | cons c cs =>
    rw [List.takeWhile_cons] at h
    by_cases hc : p c = true
    · simp [hc] at h
    · simp at hc
      simp [List.dropWhile_cons, hc]

theorem parseNatChars_natToChars (n : Nat) (rest : List Char)
    (h : rest.takeWhile isDigitCh = []) :
    parseNatChars (natToChars n ++ rest) = some (n, rest) := by
  unfold parseNatChars
  rw [takeWhile_append_all _ _ (natToChars_digits n),
    dropWhile_append_all _ _ (natToChars_digits n), h,
    dropWhile_of_takeWhile_nil rest h, List.append_nil]
  simp [natToChars_ne_nil n, natVal_natToChars n]

theorem parseIntChars_intToChars (i : Int) (rest : List Char)
    (h : rest.takeWhile isDigitCh = []) :
    parseIntChars (intToChars i ++ rest) = some (i, rest) := by
  by_cases hneg : i < 0
  · rw [intToChars, if_pos hneg, List.cons_append]
    simp only [parseIntChars, if_true]
    rw [parseNatChars_natToChars _ _ h]
    simp only [Option.map]
    congr 2
    omega
  · obtain ⟨d, ds, hnc, hd⟩ := natToChars_head i.toNat
    have hne : ¬(d = '-') := by
      intro he
      rw [he] at hd
      exact absurd hd (by decide)
    rw [intToChars, if_neg hneg, hnc, List.cons_append]
    simp only [parseIntChars]
    rw [if_neg hne, ← List.cons_append, ← hnc, parseNatChars_natToChars _ _ h]
    simp only [Option.map]
    congr 2
    omega

/-! Round-trip lemmas: the parser inverts the serializer on every
document the serializer can produce. -/

theorem hexValCh_hexDigitCh : ∀ k < 16, hexValCh (hexDigitCh k) = some k := by decide

theorem parseStrBody_escape : ∀ (s rest : List Char),
    parseStrBody (escapeChars s ++ ('"' :: rest)) = some (s, rest)
  | [], rest => by
    unfold parseStrBody
    simp [escapeChars]
  | c :: cs, rest => by
    have ih := parseStrBody_escape cs rest
    show parseStrBody ((escChar c ++ escapeChars cs) ++ ('"' :: rest)) = _
    rw [List.append_assoc]
    by_cases h1 : c = '"'
    · subst h1
      simp only [escChar, if_pos rfl]
      unfold parseStrBody
      simp [ih]
    by_cases h2 : c = '\\'
    · subst h2
      simp [escChar]
      unfold parseStrBody
      simp [ih]
    by_cases h3 : c = '\x08'
    · subst h3
      simp [escChar]
      unfold parseStrBody
      simp [ih]
    by_cases h4 : c = '\t'
    · subst h4
      simp [escChar]
      unfold parseStrBody
      simp [ih]
    by_cases h5 : c = '\n'
    · subst h5
      simp [escChar]
      unfold parseStrBody
      simp [ih]
    by_cases h6 : c = '\x0c'
    · subst h6
      simp [escChar]
      unfold parseStrBody
      simp [ih]
    by_cases h7 : c = '\r'
    · subst h7
      simp [escChar]
      unfold parseStrBody
      simp [ih]
    by_cases h8 : c.toNat < 32
    · have hhi : c.toNat / 16 < 16 := by omega
      have hlo : c.toNat % 16 < 16 := by omega
      have h0 : hexValCh '0' = some 0 := by decide
      simp only [escChar, if_neg h1, if_neg h2, if_neg h3, if_neg h4, if_neg h5,
        if_neg h6, if_neg h7, if_pos h8, List.cons_append, List.nil_append]
      unfold parseStrBody
      simp [h0, hexValCh_hexDigitCh _ hhi, hexValCh_hexDigitCh _ hlo, ih]
      rw [show c.toNat / 16 * 16 + c.toNat % 16 = c.toNat by omega]
      exact Char.ofNat_toNat c
    · simp only [escChar, if_neg h1, if_neg h2, if_neg h3, if_neg h4, if_neg h5,
        if_neg h6, if_neg h7, if_neg h8, List.cons_append, List.nil_append]
      unfold parseStrBody
      simp [h1, h2, ih]

theorem chopLit_self : ∀ (p cs : List Char), chopLit p (p ++ cs) = some cs
  | [], _ => rfl
  | c :: ps, cs => by simp [chopLit, chopLit_self ps cs]

theorem parseBoolChars_boolChars (b : Bool) (rest : List Char) :
    parseBoolChars (boolChars b ++ rest) = some (b, rest) := by
  cases b <;> rfl

theorem takeWhile_titlePre (X : List Char) :
    (titlePre.data ++ X).takeWhile isDigitCh = [] := rfl

theorem parseTodoItem_pretty (t : Todo) (rest : List Char) :
    parseTodoItem (prettyTodoChars t ++ rest) = some (t, rest) := by
  obtain ⟨i, ti, b⟩ := t
  simp only [parseTodoItem, prettyTodoChars, List.append_assoc, List.cons_append,
    chopLit_self, Option.some_bind, parseIntChars_intToChars _ _ (takeWhile_titlePre _),
    parseStrBody_escape, parseBoolChars_boolChars]

theorem itemsChars_length_ge : ∀ l : List Todo, l.length ≤ (itemsChars l).length := by
  intro l
  induction l with
  | nil => simp [itemsChars]
  | cons t ts ih =>
    have hpre : 14 ≤ (prettyTodoChars t).length := by
      have h14 : itemPre.data.length = 14 := rfl
      simp [prettyTodoChars, h14]
    cases ts with
    | nil => simpa [itemsChars] using by omega
    | cons t2 ts2 =>
      have : itemsChars (t :: t2 :: ts2) =
          prettyTodoChars t ++ (',' :: '\n' :: itemsChars (t2 :: ts2)) := rfl
      rw [this]
      simp only [List.length_append, List.length_cons]
      simp at ih ⊢
      omega

theorem parseLoopFuel_items : ∀ (l : List Todo) (fuel : Nat), l ≠ [] → l.length ≤ fuel →
    parseLoopFuel fuel (itemsChars l ++ ['\n', ']']) = some l := by
  intro l
  induction l with
  | nil => intro fuel h; exact absurd rfl h
  | cons t ts ih =>
    intro fuel _ hf
    cases fuel with
    | zero => simp at hf
    | succ f =>
      cases ts with
      | nil =>
        show parseLoopFuel (f + 1) (prettyTodoChars t ++ ['\n', ']']) = _
        simp only [parseLoopFuel, parseTodoItem_pretty, Option.some_bind]
      | cons t2 ts2 =>
        have harr : itemsChars (t :: t2 :: ts2) ++ ['\n', ']'] =
            prettyTodoChars t ++
              (',' :: '\n' :: (itemsChars (t2 :: ts2) ++ ['\n', ']'])) := by
          show (prettyTodoChars t ++ (',' :: '\n' :: itemsChars (t2 :: ts2))) ++ _ = _
          simp [List.append_assoc]
        rw [harr]
        simp only [parseLoopFuel, parseTodoItem_pretty]
        rw [ih f (by simp) (by simp at hf ⊢; omega)]
        rfl

theorem parseTodosChars_pretty (l : List Todo) :
    parseTodosChars (prettyTodosChars l) = some l := by
  cases l with
  | nil => rfl
  | cons t ts =>
    show parseTodosChars ('[' :: '\n' :: (itemsChars (t :: ts) ++ ['\n', ']'])) = _
    show parseLoopFuel (itemsChars (t :: ts) ++ ['\n', ']']).length
      (itemsChars (t :: ts) ++ ['\n', ']']) = _
    refine parseLoopFuel_items (t :: ts) _ (by simp) ?_
    have := itemsChars_length_ge (t :: ts)
    simp only [List.length_append, List.length_cons] at this ⊢
    simp at this ⊢
    omega

/-! Lemmas about well-ordered collections and the repository operations. -/

theorem mem_id_le_lastId : ∀ (l : List Todo), ascendingIds l → ∀ t ∈ l, t.id ≤ lastIdOf l
  | [], _, t, ht => absurd ht (List.not_mem_nil t)
  | [a], _, t, ht => by
    simp at ht
    subst ht
    simp [lastIdOf]
  | a :: b :: l', h, t, ht => by
    rw [ascendingIds, List.chain'_cons] at h
    have hlast : lastIdOf (a :: b :: l') = lastIdOf (b :: l') := by
      simp [lastIdOf, List.getLast?_cons_cons]
    rw [hlast]
    rcases List.mem_cons.mp ht with rfl | ht'
    · have hb : b.id ≤ lastIdOf (b :: l') :=
        mem_id_le_lastId (b :: l') h.2 b (List.mem_cons_self b l')
      have h1 := h.1
      omega
    · exact mem_id_le_lastId (b :: l') h.2 t ht'

theorem ascending_create (l : List Todo) (inp : CreateInput) (h : ascendingIds l) :
    ascendingIds (createTodo l inp).2 := by
  have hmem := mem_id_le_lastId l h
  show ascendingIds (l ++ [(⟨lastIdOf l + 1, inp.title, inp.completed.getD false⟩ : Todo)])
  rw [ascendingIds, List.chain'_append]
  refine ⟨h, List.chain'_singleton _, fun x hx y hy => ?_⟩
  simp only [List.head?_cons, Option.mem_def, Option.some.injEq] at hy
  subst hy
  obtain ⟨hne, hxe⟩ := List.mem_getLast?_eq_getLast hx
  have hxl : x ∈ l := by rw [hxe]; exact List.getLast_mem hne
  have hle := hmem x hxl
  show x.id < lastIdOf l + 1
  omega

theorem ascending_nodup (l : List Todo) (h : ascendingIds l) : (l.map Todo.id).Nodup := by
  have h2 : List.Chain' (· < ·) (l.map Todo.id) := (List.chain'_map Todo.id).mpr h
  have h3 : (l.map Todo.id).Pairwise (· < ·) := List.chain'_iff_pairwise.mp h2
  exact h3.imp Int.ne_of_lt

theorem getTodoById_eq_none_iff : ∀ (l : List Todo) (n : Int),
    getTodoById l n = none ↔ ∀ t ∈ l, t.id ≠ n
  | [], n => by simp [getTodoById]
  | a :: l', n => by
    by_cases h : a.id = n
    · simp [getTodoById, h]
    · simp [getTodoById, h, getTodoById_eq_none_iff l' n]

theorem findIndexById_spec : ∀ (l : List Todo) (n : Int) (i : Nat) (t : Todo),
    findIndexById l n = some i → l[i]? = some t →
      t.id = n ∧ l.eraseIdx i = l.take i ++ l.drop (i + 1) ∧
        ((l.map Todo.id).Nodup → getTodoById (l.eraseIdx i) n = none)
  | [], n, i, t => by intro h _; simp [findIndexById] at h
  | a :: l', n, i, t => by
    intro hfind hget
    by_cases ha : a.id = n
    · simp only [findIndexById, if_pos ha, Option.some.injEq] at hfind
      subst hfind
      have hat : a = t := by simpa using hget
      subst hat
      refine ⟨ha, rfl, fun hnd => ?_⟩
      rw [show (a :: l').eraseIdx 0 = l' from rfl, getTodoById_eq_none_iff]
      intro s hs hsn
      rw [List.map_cons, List.nodup_cons] at hnd
      apply hnd.1
      have hmem : s.id ∈ l'.map Todo.id := List.mem_map_of_mem Todo.id hs
      rwa [hsn, ← ha] at hmem
    · simp only [findIndexById, if_neg ha] at hfind
      obtain ⟨j, hj, hji⟩ := Option.map_eq_some'.mp hfind
      subst hji
      have hget' : l'[j]? = some t := by simpa using hget
      obtain ⟨h1, h2, h3⟩ := findIndexById_spec l' n j t hj hget'
      refine ⟨h1, ?_, fun hnd => ?_⟩
      · show a :: l'.eraseIdx j = a :: (l'.take j ++ l'.drop (j + 1))
        rw [h2]
      · rw [List.map_cons, List.nodup_cons] at hnd
        show getTodoById (a :: l'.eraseIdx j) n = none
        simp only [getTodoById, if_neg ha]
        exact h3 hnd.2

theorem updateTodo_eq (l : List Todo) (n : Int) (u : UpdateFields) (i : Nat) (t : Todo)
    (h1 : findIndexById l n = some i) (h2 : l[i]? = some t) :
    updateTodo l n u = .ok (mergeTodo t u, l.set i (mergeTodo t u)) := by
  simp only [updateTodo, h1, h2]

theorem deleteTodo_eq (l : List Todo) (n : Int) (i : Nat) (t : Todo)
    (h1 : findIndexById l n = some i) (h2 : l[i]? = some t) :
    deleteTodo l n = .ok (t, l.eraseIdx i) := by
  simp only [deleteTodo, h1, h2]

/-! Claim theorems. -/

/-- C7: loading any file content previously produced by save (the
serializer `prettyTodos`, i.e. `JSON.stringify(todos, null, 2)`) yields
back exactly the saved collection, so saving the unmodified load result
writes byte-identical content: save after load is idempotent. -/
theorem C7_save_load_roundtrip (l : List Todo) :
    readTodos (.content (prettyTodos l)) = some l ∧
      (readTodos (.content (prettyTodos l))).map prettyTodos = some (prettyTodos l) := by
  have h : readTodos (.content (prettyTodos l)) = some l := parseTodosChars_pretty l
  exact ⟨h, by rw [h]; rfl⟩

/-- C1 fails on the code: on DELETE `/todos/?id=99` against a store
without id 99, `deleteTodo` throws "Todo id not found", but its catch
block rewraps it as `new Error('Error deleting todo:', err.message)`,
whose message is just "Error deleting todo:"; the handler's
`err.message.includes('not found')` test is therefore false and the
response is 500 `{"error":"Failed to delete todo"}` instead of the
specified 404 `{"error":"Todo not found"}`.  The dead 404 branch at
lines 263-265 shows the 404 answer is what the author intended. -/
theorem C1_delete_missing_id_responds_500 :
    deleteTodo [] 99 = .error "Error deleting todo:" ∧
      hasSubstr "not found".data "Error deleting todo:".data = false ∧
      serverCore ⟨.DELETE, "/todos/?id=99", .malformed⟩ (.content "[]") =
        (⟨500, jsonError "Failed to delete todo"⟩, .content "[]") := by
  exact ⟨by decide, by decide, by decide⟩

/-- C2 fails on the code: `readTodos` catches read/parse errors, logs
them, and falls through, so its promise RESOLVES with `undefined` — the
error is not propagated, contradicting the code's own comment "Throw
error for proper handling" — and GET `/todos` then answers 200 with an
empty body (from `res.end(JSON.stringify(undefined))`) instead of the
specified 500, both for unreadable storage and for malformed content. -/
theorem C2_load_failure_swallowed :
    readTodos .unreadable = none ∧
      readTodos (.content "not json") = none ∧
      serverCore ⟨.GET, "/todos", .malformed⟩ .unreadable = (⟨200, ""⟩, .unreadable) ∧
      serverCore ⟨.GET, "/todos", .malformed⟩ (.content "not json") =
        (⟨200, ""⟩, .content "not json") := by
  exact ⟨by decide, by decide, by decide, by decide⟩

theorem set_get_same {α : Type} : ∀ (l : List α) (i : Nat) (x : α),
    l[i]? = some x → l.set i x = l
  | [], _, _ => by intro h; simp at h
  | a :: l', 0, x => by
    intro h
    simp at h
    subst h
    rfl
  | a :: l', i + 1, x => by
    intro h
    have hrec := set_get_same l' i x (by simpa using h)
    show a :: l'.set i x = a :: l'
    rw [hrec]

/-- C3 fails on the code: `createTodo` derives the new id from the LAST
array element, not from the maximum id, and `updateTodo` merges a
client-supplied `id` field; the trace below (every step an operation of
the repository, also replayed through the HTTP handlers) reaches the
collection `[{id:3},{id:2}]`, on which create assigns id 3 (not max+1 =
4) and produces duplicate ids, breaking the claimed invariant. -/
theorem C3_counterexample :
    createTodo [] ⟨"a", none⟩ = (⟨1, "a", false⟩, [⟨1, "a", false⟩]) ∧
      createTodo [⟨1, "a", false⟩] ⟨"b", none⟩ =
        (⟨2, "b", false⟩, [⟨1, "a", false⟩, ⟨2, "b", false⟩]) ∧
      updateTodo [⟨1, "a", false⟩, ⟨2, "b", false⟩] 1 ⟨some 3, some "a", none⟩ =
        .ok (⟨3, "a", false⟩, [⟨3, "a", false⟩, ⟨2, "b", false⟩]) ∧
      (createTodo [⟨3, "a", false⟩, ⟨2, "b", false⟩] ⟨"c", none⟩).1.id = 3 ∧
      ¬ ((createTodo [⟨3, "a", false⟩, ⟨2, "b", false⟩] ⟨"c", none⟩).2.map Todo.id).Nodup ∧
      serverCore ⟨.PUT, "/todos/?id=1", .object ⟨some 3, some "a", none⟩⟩
          (.content (prettyTodos [⟨1, "a", false⟩, ⟨2, "b", false⟩])) =
        (⟨200, stringifyTodo ⟨3, "a", false⟩⟩,
          .content (prettyTodos [⟨3, "a", false⟩, ⟨2, "b", false⟩])) ∧
      serverCore ⟨.POST, "/todos", .object ⟨none, some "c", none⟩⟩
          (.content (prettyTodos [⟨3, "a", false⟩, ⟨2, "b", false⟩])) =
        (⟨200, stringifyTodo ⟨3, "c", false⟩⟩,
          .content (prettyTodos [⟨3, "a", false⟩, ⟨2, "b", false⟩, ⟨3, "c", false⟩])) := by
  exact ⟨by decide, by decide, by decide, by decide, by decide, by decide, by decide⟩

/-- C3 amended: `create` assigns (last element's id, or 0 when empty) + 1;
when the collection is well-ordered (ids strictly ascending), create
preserves well-ordering and hence id uniqueness; delete always preserves
id uniqueness; update preserves id uniqueness whenever the update body
does not set the `id` field. -/
theorem C3_amended :
    (∀ (l : List Todo) (inp : CreateInput), (createTodo l inp).1.id = lastIdOf l + 1) ∧
      (∀ (l : List Todo) (inp : CreateInput), ascendingIds l →
        ascendingIds (createTodo l inp).2 ∧ ((createTodo l inp).2.map Todo.id).Nodup) ∧
      (∀ (l : List Todo) (n : Int) (t : Todo) (l2 : List Todo),
        (l.map Todo.id).Nodup → deleteTodo l n = .ok (t, l2) → (l2.map Todo.id).Nodup) ∧
      (∀ (l : List Todo) (n : Int) (u : UpdateFields) (m : Todo) (l2 : List Todo),
        u.id = none → (l.map Todo.id).Nodup → updateTodo l n u = .ok (m, l2) →
        (l2.map Todo.id).Nodup) := by
  refine ⟨fun l inp => rfl, fun l inp h => ?_, ?_, ?_⟩
  · have ha := ascending_create l inp h
    exact ⟨ha, ascending_nodup _ ha⟩
  · intro l n t l2 hnd heq
    cases hf : findIndexById l n with
    | none => simp [deleteTodo, hf] at heq
    | some i =>
      cases hg : l[i]? with
      | none => simp [deleteTodo, hf, hg] at heq
      | some t' =>
        simp only [deleteTodo, hf, hg, Except.ok.injEq, Prod.mk.injEq] at heq
        obtain ⟨-, h2⟩ := heq
        subst h2
        exact hnd.sublist (List.Sublist.map Todo.id (List.eraseIdx_sublist ..))
  · intro l n u m l2 hid hnd heq
    cases hf : findIndexById l n with
    | none => simp [updateTodo, hf] at heq
    | some i =>
      cases hg : l[i]? with
      | none => simp [updateTodo, hf, hg] at heq
      | some t =>
        simp only [updateTodo, hf, hg, Except.ok.injEq, Prod.mk.injEq] at heq
        obtain ⟨-, h2⟩ := heq
        subst h2
        have hm : (mergeTodo t u).id = t.id := by simp [mergeTodo, hid]
        rw [List.map_set, hm]
        have hgm : (l.map Todo.id)[i]? = some t.id := by
          rw [List.getElem?_map, hg]; rfl
        rw [set_get_same _ _ _ hgm]
        exact hnd

theorem C3_amended_witness :
    ((createTodo [⟨1, "a", false⟩] ⟨"b", none⟩).2.map Todo.id).Nodup ∧
      (([⟨2, "b", true⟩] : List Todo).map Todo.id).Nodup :=
  ⟨(C3_amended.2.1 [⟨1, "a", false⟩] ⟨"b", none⟩ (List.chain'_singleton _)).2,
    C3_amended.2.2.1 [⟨1, "a", false⟩, ⟨2, "b", true⟩] 1 ⟨1, "a", false⟩ [⟨2, "b", true⟩]
      (by decide) (by decide)⟩

/-- C4: on a well-ordered collection, the created todo's id is strictly
greater than every pre-existing id, and `completed` defaults to false
when omitted from the input. -/
theorem C4_create_result (l : List Todo) (inp : CreateInput) (h : ascendingIds l) :
    (∀ t ∈ l, t.id < (createTodo l inp).1.id) ∧
      (inp.completed = none → (createTodo l inp).1.completed = false) := by
  constructor
  · intro t ht
    have hle := mem_id_le_lastId l h t ht
    show t.id < lastIdOf l + 1
    omega
  · intro hc
    show inp.completed.getD false = false
    rw [hc]
    rfl

theorem C4_create_witness :
    (∀ t ∈ [(⟨1, "x", false⟩ : Todo)],
        t.id < (createTodo [⟨1, "x", false⟩] ⟨"y", none⟩).1.id) ∧
      ((none : Option Bool) = none →
        (createTodo [⟨1, "x", false⟩] ⟨"y", none⟩).1.completed = false) :=
  C4_create_result [⟨1, "x", false⟩] ⟨"y", none⟩ (List.chain'_singleton _)

/-- C5: when the collection contains a todo with id N (the first match
being `t` at index `i`), `updateTodo` returns the shallow merge of the
update fields over `t` and saves the collection with exactly that entry
replaced: every field present in `updates` replaces the old value and
every absent field keeps it. -/
theorem C5_update_shallow_merge (l : List Todo) (n : Int) (u : UpdateFields)
    (i : Nat) (t : Todo)
    (h1 : findIndexById l n = some i) (h2 : l[i]? = some t) :
    t.id = n ∧
      updateTodo l n u = .ok (mergeTodo t u, l.set i (mergeTodo t u)) ∧
      (mergeTodo t u).id = u.id.getD t.id ∧
      (mergeTodo t u).title = u.title.getD t.title ∧
      (mergeTodo t u).completed = u.completed.getD t.completed ∧
      (u.id = none → (mergeTodo t u).id = t.id) ∧
      (u.title = none → (mergeTodo t u).title = t.title) ∧
      (u.completed = none → (mergeTodo t u).completed = t.completed) := by
  refine ⟨(findIndexById_spec l n i t h1 h2).1, updateTodo_eq l n u i t h1 h2,
    rfl, rfl, rfl, ?_, ?_, ?_⟩
  · intro h; simp [mergeTodo, h]
  · intro h; simp [mergeTodo, h]
  · intro h; simp [mergeTodo, h]

theorem C5_update_witness :
    updateTodo [⟨1, "a", false⟩] 1 ⟨none, none, some true⟩ =
      .ok (⟨1, "a", true⟩, [⟨1, "a", true⟩]) :=
  (C5_update_shallow_merge [⟨1, "a", false⟩] 1 ⟨none, none, some true⟩ 0 ⟨1, "a", false⟩
    (by decide) (by decide)).2.1

/-- C6 fails on the code when ids are duplicated (states the operations
themselves can reach, see the C3 trace): deleting id 1 from
`[{id:1,"a"},{id:1,"b"}]` removes only the first match, and
`getTodoById` still finds id 1 on the saved collection, so "subsequent
getById yields NotFound" does not hold for every collection containing
the id. -/
theorem C6_counterexample :
    deleteTodo [⟨1, "a", false⟩, ⟨1, "b", false⟩] 1 =
      .ok (⟨1, "a", false⟩, [⟨1, "b", false⟩]) ∧
      getTodoById [⟨1, "b", false⟩] 1 = some ⟨1, "b", false⟩ := by
  exact ⟨by decide, by decide⟩

/-- C6 amended: on a collection with unique ids that contains a todo
with id N (the match being `t` at index `i`), delete removes exactly
that entry — the saved collection is the prefix before it plus the
suffix after it, every other entry unchanged and in order — returns the
removed todo, and `getTodoById` on the saved collection yields none. -/
theorem C6_delete_frame (l : List Todo) (n : Int) (i : Nat) (t : Todo)
    (hnd : (l.map Todo.id).Nodup)
    (h1 : findIndexById l n = some i) (h2 : l[i]? = some t) :
    t.id = n ∧
      deleteTodo l n = .ok (t, l.take i ++ l.drop (i + 1)) ∧
      getTodoById (l.take i ++ l.drop (i + 1)) n = none := by
  obtain ⟨hid, herase, hnone⟩ := findIndexById_spec l n i t h1 h2
  refine ⟨hid, ?_, ?_⟩
  · rw [← herase]
    exact deleteTodo_eq l n i t h1 h2
  · rw [← herase]
    exact hnone hnd

theorem C6_delete_witness :
    deleteTodo [⟨1, "a", false⟩, ⟨2, "b", false⟩] 2 =
      .ok (⟨2, "b", false⟩, [⟨1, "a", false⟩]) ∧
      getTodoById [⟨1, "a", false⟩] 2 = none := by
  have h := C6_delete_frame [⟨1, "a", false⟩, ⟨2, "b", false⟩] 2 1 ⟨2, "b", false⟩
    (by decide) (by decide) (by decide)
  exact ⟨h.2.1, h.2.2⟩

/-- C8: every request that fails input validation — a non-numeric id on
the GET/PUT/DELETE by-id routes, a malformed JSON body or a missing or
empty title on POST or PUT — is answered with status 400 and the
persisted file state is returned unchanged: no repository operation has
run. -/
theorem C8_validation_before_repository (req : Request) (fs : FileState)
    (h : failsValidation req = true) :
    (serverCore req fs).1.status = 400 ∧ (serverCore req fs).2 = fs := by
  obtain ⟨m, u, b⟩ := req
  cases m with
  | GET =>
    simp only [failsValidation, Bool.and_eq_true, Option.isNone_iff_eq_none] at h
    obtain ⟨h1, h2⟩ := h
    have hne : ¬(u = "/todos") := by
      intro he
      subst he
      exact absurd h1 (by decide)
    simp [serverCore, hne, h1, h2]
  | POST =>
    simp only [failsValidation, Bool.and_eq_true, beq_iff_eq] at h
    obtain ⟨h1, h2⟩ := h
    subst h1
    cases b with
    | malformed => simp [serverCore, postResponse]
    | object f =>
      simp only [bodyBad] at h2
      cases hft : f.title with
      | none => simp [serverCore, postResponse, hft]
      | some s =>
        rw [hft] at h2
        simp [titleTruthy] at h2
        simp [serverCore, postResponse, hft, h2]
  | PUT =>
    simp only [failsValidation, Bool.and_eq_true, Bool.or_eq_true,
      Option.isNone_iff_eq_none] at h
    obtain ⟨h1, hor⟩ := h
    cases hq : parsedQueryId u with
    | none => simp [serverCore, h1, hq]
    | some k =>
      rw [hq] at hor
      simp only [reduceCtorEq, false_or] at hor
      cases b with
      | malformed => simp [serverCore, putResponse, h1, hq]
      | object f =>
        simp only [bodyBad] at hor
        cases hft : f.title with
        | none => simp [serverCore, putResponse, h1, hq, hft]
        | some s =>
          rw [hft] at hor
          simp [titleTruthy] at hor
          simp [serverCore, putResponse, h1, hq, hft, hor]
  | DELETE =>
    simp only [failsValidation, Bool.and_eq_true, Option.isNone_iff_eq_none] at h
    obtain ⟨h1, h2⟩ := h
    simp [serverCore, h1, h2]

theorem C8_validation_witness :
    (serverCore ⟨.PUT, "/todos/?id=7", .object ⟨none, some "", none⟩⟩
        (.content "[]")).1.status = 400 ∧
      (serverCore ⟨.PUT, "/todos/?id=7", .object ⟨none, some "", none⟩⟩
        (.content "[]")).2 = .content "[]" :=
  C8_validation_before_repository _ _ (by decide)

/-- C9: the HTTP response and the persisted state are those of
`serverCore`, which takes no input from the log sink at all, so a
log-append failure never changes them and never surfaces as an error in
the handler; the failure is reported only as the listener's stderr line,
and only on the routes that emit the `log` event. -/
theorem C9_log_failure_isolated (req : Request) (fs : FileState) (appendFails : Bool) :
    (serverStep req fs appendFails).1 = (serverCore req fs).1 ∧
      (serverStep req fs appendFails).2.1 = (serverCore req fs).2 ∧
      (serverStep req fs appendFails).2.2 =
        (if appendFails && isTodoRoute req then ["Logging failed:"] else []) := by
  refine ⟨rfl, rfl, ?_⟩
  cases appendFails <;> cases h : isTodoRoute req <;>
    simp [serverStep, logListenerStderr, h]

/-- C10: the id check accepts every string with a parseable leading
integer part, not only canonical positive integers: "12abc" parses to
12 — and a GET with `?id=12abc` behaves exactly like `?id=12` — "1.9"
parses to 1, "-5" and "0" pass validation, and on the GET/PUT/DELETE
by-id routes exactly the requests whose parseInt result is NaN are
answered 400 "Invalid id". -/
theorem C10_parseInt_leniency :
    (parseIntJS "12abc" = some 12 ∧ parseIntJS "1.9" = some 1 ∧
      parseIntJS "-5" = some (-5) ∧ parseIntJS "0" = some 0 ∧
      parseIntJS "abc" = none) ∧
      (∀ (fs : FileState) (b : Body),
        serverCore ⟨.GET, "/todos/?id=12abc", b⟩ fs =
          serverCore ⟨.GET, "/todos/?id=12", b⟩ fs) ∧
      (∀ (u : String) (fs : FileState) (b : Body), isTodosSub u = true →
        parsedQueryId u = none →
        serverCore ⟨.GET, u, b⟩ fs = (⟨400, "Invalid id"⟩, fs) ∧
        serverCore ⟨.PUT, u, b⟩ fs = (⟨400, "Invalid id"⟩, fs) ∧
        serverCore ⟨.DELETE, u, b⟩ fs = (⟨400, "Invalid id"⟩, fs)) ∧
      (∀ (u : String) (fs : FileState) (b : Body) (k : Int), isTodosSub u = true →
        parsedQueryId u = some k →
        (serverCore ⟨.GET, u, b⟩ fs).1 ≠ ⟨400, "Invalid id"⟩ ∧
        (serverCore ⟨.PUT, u, b⟩ fs).1 ≠ ⟨400, "Invalid id"⟩ ∧
        (serverCore ⟨.DELETE, u, b⟩ fs).1 ≠ ⟨400, "Invalid id"⟩) := by
  refine ⟨⟨by decide, by decide, by decide, by decide, by decide⟩, ?_, ?_, ?_⟩
  · intro fs b
    have h1 : parsedQueryId "/todos/?id=12abc" = some 12 := by decide
    have h2 : parsedQueryId "/todos/?id=12" = some 12 := by decide
    have h3 : isTodosSub "/todos/?id=12abc" = true := by decide
    have h4 : isTodosSub "/todos/?id=12" = true := by decide
    have h5 : ¬("/todos/?id=12abc" = ("/todos" : String)) := by decide
    have h6 : ¬("/todos/?id=12" = ("/todos" : String)) := by decide
    simp [serverCore, h1, h2, h3, h4, h5, h6]
  · intro u fs b h1 h2
    have hne : ¬(u = "/todos") := by
      intro he
      subst he
      exact absurd h1 (by decide)
    refine ⟨?_, ?_, ?_⟩ <;> simp [serverCore, hne, h1, h2]
  · intro u fs b k h1 h2
    have hne : ¬(u = "/todos") := by
      intro he
      subst he
      exact absurd h1 (by decide)
    refine ⟨?_, ?_, ?_⟩
    · simp only [serverCore, if_neg hne, h1, if_true, h2]
      cases hr : readTodos fs with
      | none => simp [getByIdResponse, hr]
      | some l =>
        cases hg : getTodoById l k with
        | none => simp [getByIdResponse, hr, hg]
        | some t => simp [getByIdResponse, hr, hg]
    · simp only [serverCore, h1, if_true, h2]
      cases b with
      | malformed =>
        simp only [putResponse]
        decide
      | object f =>
        cases hft : f.title with
        | none =>
          simp [putResponse, hft]
          decide
        | some s =>
          by_cases hd : s.data = []
          · simp [putResponse, hft, hd]
            decide
          · simp only [putResponse, hft, if_neg hd]
            cases hupd : updateTodoFs fs k f with
            | error msg => simp [hupd, jsonError]
            | ok p => simp [hupd]
    · simp only [serverCore, h1, if_true, h2]
      cases hdel : deleteTodoFs fs k with
      | error msg =>
        simp only [deleteResponse, hdel]
        by_cases hsub : hasSubstr "not found".data msg.data = true
        · simp [hsub]
        · simp only [Bool.not_eq_true] at hsub
          simp [hsub]
      | ok p => simp [deleteResponse, hdel]

theorem C10_parseInt_witness :
    serverCore ⟨.GET, "/todos/?id=abc", .malformed⟩ .unreadable =
      (⟨400, "Invalid id"⟩, .unreadable) ∧
      (serverCore ⟨.DELETE, "/todos/?id=0", .malformed⟩ (.content "[]")).1 ≠
        ⟨400, "Invalid id"⟩ :=
  ⟨(C10_parseInt_leniency.2.2.1 "/todos/?id=abc" .unreadable .malformed
      (by decide) (by decide)).1,
    (C10_parseInt_leniency.2.2.2 "/todos/?id=0" (.content "[]") .malformed 0
      (by decide) (by decide)).2.2⟩

end TodoServer
